import Mathlib

/-
Verification of the iced_image_gallery asynchronous image pipeline and
navigation state machine.

Shallow embedding of the Rust sources:
  src/image_data.rs       image identities, pixel buffers, decode targets,
                          errors, directory discovery, decoding
  src/core/helper.rs      list_image_files
  src/gallery.rs          the Gallery controller (messages and update)
  src/ui/gallery/components/viewer.rs   the Viewer state machine
  src/ui/gallery/components/preview.rs  the Preview cache entries

Machine integers (u32, usize) are modelled as Nat: none of the verified
operations can overflow (ids and indices are bounded by list lengths, and
pixel dimensions are only compared). Fallible operations return Except or
Option. Rust panics (unwrap on None, out-of-bounds indexing, debug
underflow of usize subtraction) are modelled by the step function
returning none. Wall-clock instants are an abstract Nat supplied to each
event, matching the design where the toolkit supplies the "now" stamp.
-/

/-- An image identity: a dense integer assigned by discovery order.
Mirrors struct Id(u32) of src/image_data.rs. Named ImageId because the
root name Id is taken by the Lean core library. -/
structure ImageId where
  val : Nat
deriving DecidableEq

/-- A file location: base name plus optional extension. Stands for the
PathBuf values the gallery passes around; only the extension is ever
inspected by the code under verification. -/
structure FsPath where
  stem : String
  ext : Option String
deriving DecidableEq

/-- A decoded pixel buffer, mirroring struct Rgba of src/image_data.rs.
The byte payload is abstracted to a list of bytes. -/
structure Rgba where
  width : Nat
  height : Nat
  pixels : List Nat
deriving DecidableEq

/-- Decode target, mirroring enum Size of src/image_data.rs. -/
inductive Size where
  | Original : Size
  | Thumbnail (width height : Nat) : Size
deriving DecidableEq

/-- Failure taxonomy, mirroring enum Error of src/image_data.rs. The
payloads (io::Error, JoinError, ImageError) carry no information used by
the control flow and are dropped. -/
inductive Error where
  | IOFailed : Error
  | JoinFailed : Error
  | ImageDecodingFailed : Error
deriving DecidableEq

/-- A discovered image, mirroring struct Image of src/image_data.rs. -/
structure Image where
  id : ImageId
  path : FsPath
deriving DecidableEq

/-- The accepted extensions of src/core/helper.rs and Image::list. -/
def EXTENSIONS : List String := ["jpg", "jpeg", "png", "gif"]

/-- ASCII lowercasing of one character, as performed by to_lowercase on
the letters of the extensions under comparison. -/
def lowerChar (c : Char) : Char :=
  if 65 ≤ c.toNat ∧ c.toNat ≤ 90 then Char.ofNat (c.toNat + 32) else c

/-- ASCII lowercasing of a string, character by character. Rust
to_lowercase additionally folds non-ASCII letters, which cannot occur in
any string equal to one of the four accepted extensions. -/
def lowerString (s : String) : String :=
  ⟨s.data.map lowerChar⟩

/-- The extension filter shared by list_image_files and Image::list:
path.extension().map_or(false, |ext| EXTENSIONS.contains of the
lowercased extension). A missing extension never matches. -/
def extMatches (p : FsPath) : Bool :=
  match p.ext with
  | none => false
  | some e => EXTENSIONS.contains (lowerString e)

/-- Embedding of list_image_files of src/core/helper.rs. The filesystem
read is abstracted: none models a non-existent or unreadable directory
(read_dir returning Err), and an inner none models a directory entry
whose read failed (the if-let-Ok skip). Entries passing the extension
filter are kept in enumeration order. -/
def list_image_files (dirEntries : Option (List (Option FsPath))) : List FsPath :=
  match dirEntries with
  | none => []
  | some entries =>
    entries.filterMap fun e =>
      match e with
      | some p => if extMatches p then some p else none
      | none => none

/-- The id-assigning loop of Image::list in src/image_data.rs: walk the
entries in enumeration order, skip unreadable entries and entries failing
the extension filter, and give each kept entry the next dense id. -/
def assignIds : List (Option FsPath) → Nat → List Image
  | [], _ => []
  | none :: rest, n => assignIds rest n
  | some p :: rest, n =>
    if extMatches p then { id := ⟨n⟩, path := p } :: assignIds rest (n + 1)
    else assignIds rest n

/-- Embedding of Image::list of src/image_data.rs: discovery returns
Ok of the filtered, densely numbered images, and Ok of the empty list
when read_dir fails (the if-let-Ok around read_dir). -/
def Image.list (dirEntries : Option (List (Option FsPath))) : Except Error (List Image) :=
  match dirEntries with
  | none => .ok []
  | some entries => .ok (assignIds entries 0)

/-- Embedding of Image::download of src/image_data.rs. The codec
(image::open followed by to_rgba8) is an external collaborator and is
abstracted as a decode oracle from the file location to a pixel buffer or
an error (covering IO, join and decoding failures). The body mirrors the
source exactly: it opens the image at self.path, converts to RGBA8, and
returns a buffer with the width and height of that conversion. The size
argument is bound but never used by the source, so the result does not
depend on it. -/
def Image.download (decode : FsPath → Except Error Rgba) (img : Image)
    (size : Size) : Except Error Rgba :=
  match decode img.path with
  | .error e => .error e
  | .ok rgba => .ok { width := rgba.width, height := rgba.height, pixels := rgba.pixels }

/-- Duration of the quick animation track. Modelled from the spec:
iced::Animation is an external collaborator; the spec fixes only that
every track in this system uses a short duration. The concrete number is
irrelevant to the theorems, which only use 0 < QUICK. -/
def QUICK : Nat := 200

/-- An exact, unnormalized fraction: an integer numerator over a natural
denominator. All fractions built by the animation model keep a positive
denominator. Exact rational arithmetic without gcd normalization keeps
every operation kernel-computable. -/
structure Frac where
  num : Int
  den : Nat
deriving DecidableEq

/-- The fraction zero. -/
def Frac.zero : Frac := ⟨0, 1⟩

/-- The fraction one. -/
def Frac.one : Frac := ⟨1, 1⟩

/-- Cross-multiplied addition. -/
def Frac.add (a b : Frac) : Frac :=
  ⟨a.num * (b.den : Int) + b.num * (a.den : Int), a.den * b.den⟩

/-- Cross-multiplied subtraction. -/
def Frac.sub (a b : Frac) : Frac :=
  ⟨a.num * (b.den : Int) - b.num * (a.den : Int), a.den * b.den⟩

/-- Multiplication. -/
def Frac.mul (a b : Frac) : Frac :=
  ⟨a.num * b.num, a.den * b.den⟩

/-- Strict positivity of the represented rational, valid whenever the
denominator is positive. -/
def Frac.isPos (a : Frac) : Bool :=
  decide (0 < a.num)

/-- Modelled from the spec: the iced Animation over bool (section 4.1 of
the design), which is outside the repository sources. It stores the
current boolean target, the instant of the last target transition, and
the interpolated value held at that instant; queries interpolate between
caller endpoints against an externally supplied now. Easing is modelled
linearly; the theorems below depend only on sign and boundary facts that
hold for any content-preserving easing. -/
structure Animation where
  target : Bool
  start : Nat
  valueAt : Frac
deriving DecidableEq

/-- Animation::new: no transition yet, holding the value of the initial
target. -/
def Animation.new (b : Bool) : Animation :=
  { target := b, start := 0, valueAt := if b then Frac.one else Frac.zero }

/-- Eased progress through the current transition at the given now,
clamped to one once the duration has elapsed. Instants before the
transition contribute zero via truncated Nat subtraction. -/
def Animation.progress (a : Animation) (now : Nat) : Frac :=
  if QUICK ≤ now - a.start then Frac.one else ⟨((now - a.start : Nat) : Int), QUICK⟩

/-- The animated scalar in zero-one coordinates at the given now. -/
def Animation.value (a : Animation) (now : Nat) : Frac :=
  Frac.add a.valueAt
    (Frac.mul (Frac.sub (if a.target then Frac.one else Frac.zero) a.valueAt)
      (a.progress now))

/-- interpolate(from, to, now) of the spec contract. -/
def Animation.interpolate (a : Animation) (lo hi : Frac) (now : Nat) : Frac :=
  Frac.add lo (Frac.mul (Frac.sub hi lo) (a.value now))

/-- go_mut(target): idempotent when the target is unchanged, otherwise
record the new target, the transition instant, and the value held at
that instant (so a reversal continues from the current value). -/
def Animation.go_mut (a : Animation) (tgt : Bool) (t : Nat) : Animation :=
  if tgt = a.target then a
  else { target := tgt, start := t, valueAt := a.value t }

/-- The builder form go used at construction (Animation::new(false)
followed by .go(true)). -/
def Animation.go (a : Animation) (tgt : Bool) (t : Nat) : Animation :=
  a.go_mut tgt t

/-- isAnimating(now): true while now lies within the duration window of
the most recent transition. -/
def Animation.is_animating (a : Animation) (now : Nat) : Bool :=
  decide (a.start ≤ now ∧ now < a.start + QUICK)

/-- A ready thumbnail, mirroring struct Thumbnail of the preview
component: the renderable handle (whose content is exactly the rgba
buffer passed to image::Handle::from_rgba) plus the fade-in and zoom
tracks. Construction starts the fade-in at once via go(true). -/
structure Thumbnail where
  handle : Rgba
  fade_in : Animation
  zoom : Animation
deriving DecidableEq

/-- Thumbnail::new at construction instant t. -/
def Thumbnail.new (rgba : Rgba) (t : Nat) : Thumbnail :=
  { handle := rgba
    fade_in := (Animation.new false).go true t
    zoom := Animation.new false }

/-- The per-image preview lifecycle, mirroring enum Preview. -/
inductive Preview where
  | Loading : Preview
  | Ready (thumbnail : Thumbnail) : Preview
deriving DecidableEq

/-- Preview::WIDTH. -/
def Preview.WIDTH : Nat := 360

/-- Preview::HEIGHT. -/
def Preview.HEIGHT : Nat := 360

/-- Preview::ready. -/
def Preview.ready (rgba : Rgba) (t : Nat) : Preview :=
  .Ready (Thumbnail.new rgba t)

/-- Preview::load: replace (not merge) with a fresh Ready entry. -/
def Preview.load (_p : Preview) (rgba : Rgba) (t : Nat) : Preview :=
  .Ready (Thumbnail.new rgba t)

/-- Preview::toggle_zoom: only a Ready entry reacts. -/
def Preview.toggle_zoom (p : Preview) (enabled : Bool) (t : Nat) : Preview :=
  match p with
  | .Ready thumbnail => .Ready { thumbnail with zoom := thumbnail.zoom.go_mut enabled t }
  | .Loading => .Loading

/-- Preview::is_animating. -/
def Preview.is_animating (p : Preview) (now : Nat) : Bool :=
  match p with
  | .Ready thumbnail => thumbnail.fade_in.is_animating now || thumbnail.zoom.is_animating now
  | .Loading => false

/-- The full-resolution viewer, mirroring struct Viewer of
src/ui/gallery/components/viewer.rs (identical to the Viewer embedded in
src/gallery.rs). The held handle is the rgba buffer it was built from. -/
structure Viewer where
  image : Option Rgba
  background_fade_in : Animation
  image_fade_in : Animation
  current_id : Option ImageId
  current_index : Option Nat
deriving DecidableEq

/-- Viewer::new: note current_index starts as Some 0 while current_id
starts as None. -/
def Viewer.new : Viewer :=
  { image := none
    background_fade_in := Animation.new false
    image_fade_in := Animation.new false
    current_id := none
    current_index := some 0 }

/-- Viewer::is_open: the background fade interpolated from 0.0 toward
0.8 (four fifths) is strictly positive at now. -/
def Viewer.is_open (v : Viewer) (now : Nat) : Bool :=
  (v.background_fade_in.interpolate Frac.zero ⟨4, 5⟩ now).isPos

/-- Viewer::open: clear the held image and fade the background in.
Named openOverlay because open is a Lean keyword. -/
def Viewer.openOverlay (v : Viewer) (t : Nat) : Viewer :=
  { v with image := none, background_fade_in := v.background_fade_in.go_mut true t }

/-- Viewer::show: install the delivered buffer unconditionally and fade
both tracks in. The source performs no identity comparison and receives
no identity to compare. -/
def Viewer.show (v : Viewer) (rgba : Rgba) (t : Nat) : Viewer :=
  { v with
    image := some rgba
    background_fade_in := v.background_fade_in.go_mut true t
    image_fade_in := v.image_fade_in.go_mut true t }

/-- Viewer::close: reverse both fades and clear current_id. The source
leaves current_index untouched. -/
def Viewer.close (v : Viewer) (t : Nat) : Viewer :=
  { v with
    background_fade_in := v.background_fade_in.go_mut false t
    image_fade_in := v.image_fade_in.go_mut false t
    current_id := none }

/-- Viewer::is_animating. -/
def Viewer.is_animating (v : Viewer) (now : Nat) : Bool :=
  v.background_fade_in.is_animating now || v.image_fade_in.is_animating now

/-- Keyboard keys distinguished by the KeyPressed handler of
src/gallery.rs. -/
inductive Key where
  | arrowLeft : Key
  | arrowRight : Key
  | escape : Key
  | other : Key
deriving DecidableEq

/-- An iced keyboard event: a key press carrying a key, or any other
keyboard event (which the handler ignores). -/
inductive KbEvent where
  | keyPressed (key : Key) : KbEvent
  | otherKeyboardEvent : KbEvent
deriving DecidableEq

/-- The asynchronous requests the controller hands to the background
pool: the one directory listing created in Gallery::new, thumbnail
decodes at a requested size, and original-resolution decodes. A
downloadOriginal request records the id of the image whose path is
decoded; the completion message itself carries no identity, exactly as
Message::ImageDownloaded in the source. -/
inductive Req where
  | listImages : Req
  | downloadThumbnail (id : ImageId) (width height : Nat) : Req
  | downloadOriginal (id : ImageId) : Req
deriving DecidableEq

/-- The controller messages, mirroring enum Message of src/gallery.rs.
ViewportChanged carries a Viewport in the source, but the handler body is
fully commented out, so the payload is dropped. -/
inductive Message where
  | ImagesListed (result : Except Error (List Image)) : Message
  | ImagePoppedIn (id : ImageId) : Message
  | ImageDownloaded (result : Except Error Rgba) : Message
  | ThumbnailDownloaded (id : ImageId) (result : Except Error Rgba) : Message
  | ThumbnailHovered (id : ImageId) (hovered : Bool) : Message
  | Open (id : ImageId) : Message
  | Close : Message
  | Animate (t : Nat) : Message
  | ViewportChanged : Message
  | KeyPressed (event : KbEvent) : Message

/-- The controller state, mirroring struct Gallery of src/gallery.rs.
The HashMap of previews is modelled as a function from ids to optional
entries; image_dir is dropped (it is never read after construction). -/
structure Gallery where
  images : List Image
  previews : ImageId → Option Preview
  viewer : Viewer
  now : Nat

/-- Gallery::new: empty list, empty cache, fresh viewer, creation
instant, plus the single directory-listing task. -/
def Gallery.new (t0 : Nat) : Gallery × List Req :=
  ({ images := []
     previews := fun _ => none
     viewer := Viewer.new
     now := t0 }, [Req.listImages])

/-- The KeyPressed arm of Gallery::update. Arrow handling unwraps
current_index (none models the unwrap panic), ArrowRight first evaluates
images.len() - 1 (a panic in debug builds and an out-of-bounds index in
release builds when the list is empty, both modelled as none), and list
indexing out of bounds is likewise none. Escape closes the viewer. All
of this only runs while the viewer is open at the stored now. -/
def handleKey (g : Gallery) (ev : KbEvent) (t : Nat) : Option (Gallery × List Req) :=
  match ev with
  | .otherKeyboardEvent => some (g, [])
  | .keyPressed key =>
    if g.viewer.is_open g.now then
      match key with
      | .arrowLeft =>
        match g.viewer.current_index with
        | none => none
        | some current_index =>
          if 0 < current_index then
            match g.images[current_index - 1]? with
            | none => none
            | some prev_image =>
              some ({ g with viewer :=
                { g.viewer with
                  current_index := some (current_index - 1)
                  current_id := some prev_image.id } },
                [Req.downloadOriginal prev_image.id])
          else some (g, [])
      | .arrowRight =>
        match g.viewer.current_index with
        | none => none
        | some current_index =>
          if g.images.length = 0 then none
          else if current_index < g.images.length - 1 then
            match g.images[current_index + 1]? with
            | none => none
            | some next_image =>
              some ({ g with viewer :=
                { g.viewer with
                  current_index := some (current_index + 1)
                  current_id := some next_image.id } },
                [Req.downloadOriginal next_image.id])
          else some (g, [])
      | .escape => some ({ g with viewer := g.viewer.close t }, [])
      | .other => some (g, [])
    else some (g, [])

/-- Embedding of Gallery::update of src/gallery.rs: one delivered event
handled to completion, returning the successor state and the requests
handed to the background pool. The instant t is the wall clock at which
the event is processed; it feeds the go_mut transitions exactly where
the source implicitly reads Instant::now. A result of none models a
panic. The dbg! logging of the error arms has no state effect. -/
def Gallery.update (g : Gallery) (m : Message) (t : Nat) : Option (Gallery × List Req) :=
  match m with
  | .ImagesListed (.ok images) => some ({ g with images := images }, [])
  | .ImagePoppedIn id =>
    match g.images.find? (fun candidate => decide (candidate.id = id)) with
    | none => some (g, [])
    | some _image =>
      some (g, [Req.downloadThumbnail id Preview.WIDTH Preview.HEIGHT])
  | .ImageDownloaded (.ok rgba) =>
    some ({ g with viewer := g.viewer.show rgba t }, [])
  | .ThumbnailDownloaded id (.ok rgba) =>
    let thumbnail :=
      match g.previews id with
      | some preview => preview.load rgba t
      | none => Preview.ready rgba t
    some ({ g with previews := fun k => if k = id then some thumbnail else g.previews k }, [])
  | .ThumbnailHovered id hovered =>
    match g.previews id with
    | some preview =>
      some ({ g with previews :=
        fun k => if k = id then some (preview.toggle_zoom hovered t) else g.previews k }, [])
    | none => some (g, [])
  | .Open id =>
    match g.images.find? (fun candidate => decide (candidate.id = id)) with
    | none => some (g, [])
    | some _image =>
      let current_index := g.images.findIdx? (fun img => decide (img.id = id))
      some ({ g with viewer :=
        { g.viewer.openOverlay t with
          current_id := some id
          current_index := current_index } },
        [Req.downloadOriginal id])
  | .Close => some ({ g with viewer := g.viewer.close t }, [])
  | .Animate now => some ({ g with now := now }, [])
  | .ViewportChanged => some (g, [])
  | .KeyPressed ev => handleKey g ev t
  | .ImagesListed (.error _) => some (g, [])
  | .ImageDownloaded (.error _) => some (g, [])
  | .ThumbnailDownloaded _ (.error _) => some (g, [])

/-- The messages originating from the user or the toolkit rather than
from a background completion. -/
def isUserMessage : Message → Bool
  | .ImagesListed _ => false
  | .ImageDownloaded _ => false
  | .ThumbnailDownloaded _ _ => false
  | _ => true

/-- Delivery discipline of the single-threaded event loop: a user
message is always deliverable and leaves the outstanding requests
untouched; a completion message consumes a matching outstanding request.
An ImageDownloaded completion matches any outstanding original-
resolution request (the message carries no identity), so completions may
arrive in any order, as the design warns. -/
inductive Delivers : Message → List Req → List Req → Prop
  | user (m : Message) (o : List Req) :
      isUserMessage m = true → Delivers m o o
  | listed (r : Except Error (List Image)) (o1 o2 : List Req) :
      Delivers (.ImagesListed r) (o1 ++ Req.listImages :: o2) (o1 ++ o2)
  | thumb (id : ImageId) (w h : Nat) (r : Except Error Rgba) (o1 o2 : List Req) :
      Delivers (.ThumbnailDownloaded id r) (o1 ++ Req.downloadThumbnail id w h :: o2) (o1 ++ o2)
  | orig (id : ImageId) (r : Except Error Rgba) (o1 o2 : List Req) :
      Delivers (.ImageDownloaded r) (o1 ++ Req.downloadOriginal id :: o2) (o1 ++ o2)

/-- Reachability of a controller state together with its outstanding
background requests: start from Gallery::new and repeatedly deliver a
permissible message at an arbitrary instant, processing it without a
panic. -/
inductive Reachable : Gallery → List Req → Prop
  | init (t0 : Nat) : Reachable (Gallery.new t0).1 (Gallery.new t0).2
  | step {s : Gallery} {o : List Req} {m : Message} {o' : List Req} (t : Nat)
      {s' : Gallery} {reqs : List Req} :
      Reachable s o → Delivers m o o' →
      Gallery.update s m t = some (s', reqs) → Reachable s' (o' ++ reqs)

/-- Well-formedness of an animation track: the held value is a fraction
with positive denominator and nonnegative numerator (the represented
scalar is nonnegative). Every track the gallery ever constructs
satisfies it. -/
def AnimWF (a : Animation) : Prop :=
  0 < a.valueAt.den ∧ 0 ≤ a.valueAt.num

/-- A first discovered image, used by the concrete scenarios below. -/
def img0 : Image := ⟨⟨0⟩, ⟨"a", some ("jpg")⟩⟩

/-- A second discovered image. -/
def img1 : Image := ⟨⟨1⟩, ⟨"b", some ("jpg")⟩⟩

/-- The full-resolution buffer of img0 in the stale-delivery scenario. -/
def rgbaA : Rgba := ⟨8, 8, [1]⟩

/-- The full-resolution buffer of img1 in the stale-delivery scenario. -/
def rgbaB : Rgba := ⟨6, 6, [2]⟩

/-- Process one message against an optional state, dropping the issued
requests: a convenience for writing concrete event traces. -/
def stepG (g : Option Gallery) (m : Message) (t : Nat) : Option Gallery :=
  g.bind fun s => (Gallery.update s m t).map Prod.fst

/-- The controller state after discovery has delivered a single image:
reached from Gallery::new by processing ImagesListed. -/
def gListed : Gallery :=
  { images := [img0]
    previews := fun _ => none
    viewer := Viewer.new
    now := 0 }

/-- The stale-delivery scenario of the design (section 8): discovery
delivers two images, the viewer opens on image 0, a frame tick advances
the stored clock, ArrowRight navigates to image 1, and then the two
original-resolution completions arrive out of request order: first the
buffer of image 1, then the buffer of image 0. -/
def c1Final : Option Gallery :=
  stepG (stepG (stepG (stepG (stepG (stepG (some (Gallery.new 0).1)
    (.ImagesListed (.ok [img0, img1])) 1)
    (.Open ⟨0⟩) 2)
    (.Animate 3) 0)
    (.KeyPressed (.keyPressed .arrowRight)) 4)
    (.ImageDownloaded (.ok rgbaB)) 5)
    (.ImageDownloaded (.ok rgbaA)) 6

/-- The decode oracle of a large image: every open of its path yields a
500 by 500 RGBA8 buffer, regardless of any requested target size. -/
def bigDecode : FsPath → Except Error Rgba := fun _ => .ok ⟨500, 500, []⟩

/-- A concrete open viewer over two images at index 0: discovery found
img0 and img1, the viewer was opened on img0 at instant 2, and the
stored clock has advanced to 3, so is_open holds. -/
def gOpenTwo : Gallery :=
  { images := [img0, img1]
    previews := fun _ => none
    viewer :=
      { image := none
        background_fade_in := ⟨true, 2, Frac.zero⟩
        image_fade_in := Animation.new false
        current_id := some ⟨0⟩
        current_index := some 0 }
    now := 3 }

/-- The background fade can be rendering the overlay: its target is
visible, or the value held at its last transition is still positive
(a closing animation may not have finished). Whenever is_open holds at
some instant, the track is Openable. -/
def Openable (a : Animation) : Prop :=
  a.target = true ∨ 0 < a.valueAt.num

/-- Some original-resolution decode is outstanding. -/
def HasOrig (o : List Req) : Prop :=
  ∃ id, Req.downloadOriginal id ∈ o

/-- The number of outstanding directory-listing requests. -/
def listCount (o : List Req) : Nat :=
  o.countP fun r => decide (r = Req.listImages)

/-- The invariant of reachable controller states, relating the viewer
navigation fields, the image list, and the outstanding requests. -/
structure GalleryInv (s : Gallery) (o : List Req) : Prop where
  idxSome : ∃ i, s.viewer.current_index = some i
  idxLt : ∀ i, s.viewer.current_index = some i →
    (Openable s.viewer.background_fade_in ∨ HasOrig o) → i < s.images.length
  pendingList : Req.listImages ∈ o →
    s.images = [] ∧ ¬ Openable s.viewer.background_fade_in ∧ ¬ HasOrig o ∧
      s.viewer.current_id = none
  idMatch : ∀ id, s.viewer.current_id = some id →
    ∃ i img, s.viewer.current_index = some i ∧ s.images[i]? = some img ∧ img.id = id
  bgWF : AnimWF s.viewer.background_fade_in
  listOnce : listCount o ≤ 1

/-- The state reached from Gallery::new by delivering a one-image
discovery result and then opening image 0 at instant 2. -/
def gOpened : Gallery :=
  { images := [img0]
    previews := fun _ => none
    viewer :=
      { image := none
        background_fade_in := ⟨true, 2, ⟨0, 200⟩⟩
        image_fade_in := Animation.new false
        current_id := some ⟨0⟩
        current_index := some 0 }
    now := 0 }

theorem Animation.progress_den_pos (a : Animation) (now : Nat) :
    0 < (a.progress now).den := by
  unfold Animation.progress
  split
  · exact Nat.one_pos
  · norm_num [QUICK]

theorem Animation.progress_num_nonneg (a : Animation) (now : Nat) :
    0 ≤ (a.progress now).num := by
  unfold Animation.progress
  split
  · norm_num [Frac.one]
  · exact Int.natCast_nonneg _

theorem Animation.progress_num_le_den (a : Animation) (now : Nat) :
    (a.progress now).num ≤ ((a.progress now).den : Int) := by
  unfold Animation.progress
  split
  · norm_num [Frac.one]
  · rename_i h
    push_neg at h
    dsimp only
    exact_mod_cast Nat.le_of_lt h

theorem Animation.progress_num_pos (a : Animation) (now : Nat) (h : a.start < now) :
    0 < (a.progress now).num := by
  unfold Animation.progress
  split
  · norm_num [Frac.one]
  · dsimp only
    exact_mod_cast Nat.sub_pos_of_lt h

theorem Animation.value_den_pos (a : Animation) (now : Nat)
    (hd : 0 < a.valueAt.den) : 0 < (a.value now).den := by
  have hp := a.progress_den_pos now
  cases ht : a.target <;>
    simp only [Animation.value, ht, Bool.false_eq_true, eq_self_iff_true,
      if_true, if_false, Frac.add, Frac.sub, Frac.mul, Frac.one, Frac.zero] <;>
    positivity

theorem Animation.value_num_nonneg (a : Animation) (now : Nat)
    (hd : 0 < a.valueAt.den) (hn : 0 ≤ a.valueAt.num) : 0 ≤ (a.value now).num := by
  have hp0 := a.progress_num_nonneg now
  have hp1 := a.progress_num_le_den now
  have hpd := a.progress_den_pos now
  have hdZ : (0 : Int) < (a.valueAt.den : Int) := Int.natCast_pos.mpr hd
  have hpdZ : (0 : Int) < ((a.progress now).den : Int) := Int.natCast_pos.mpr hpd
  cases ht : a.target <;>
    simp only [Animation.value, ht, Bool.false_eq_true, eq_self_iff_true,
      if_true, if_false, Frac.add, Frac.sub, Frac.mul, Frac.one, Frac.zero] <;>
    push_cast <;>
    nlinarith [mul_nonneg (mul_nonneg hn (sub_nonneg.mpr hp1)) (le_of_lt hdZ),
      mul_nonneg (mul_nonneg (le_of_lt hdZ) (le_of_lt hdZ)) hp0]

theorem Animation.value_num_pos_of_target (a : Animation) (now : Nat)
    (ht : a.target = true) (hd : 0 < a.valueAt.den) (hn : 0 ≤ a.valueAt.num)
    (hlt : a.start < now) : 0 < (a.value now).num := by
  have hp0 := a.progress_num_pos now hlt
  have hp1 := a.progress_num_le_den now
  have hpd := a.progress_den_pos now
  have hdZ : (0 : Int) < (a.valueAt.den : Int) := Int.natCast_pos.mpr hd
  simp only [Animation.value, ht, eq_self_iff_true, if_true,
    Frac.add, Frac.sub, Frac.mul, Frac.one, Frac.zero]
  push_cast
  nlinarith [mul_nonneg (mul_nonneg hn (sub_nonneg.mpr hp1)) (le_of_lt hdZ),
    mul_pos (mul_pos hdZ hdZ) hp0]

theorem Animation.target_or_valueAt_pos_of_value_pos (a : Animation) (now : Nat)
    (hd : 0 < a.valueAt.den) (h : 0 < (a.value now).num) :
    a.target = true ∨ 0 < a.valueAt.num := by
  cases ht : a.target
  · right
    have hp1 := a.progress_num_le_den now
    have hpd := a.progress_den_pos now
    have hdZ : (0 : Int) < (a.valueAt.den : Int) := Int.natCast_pos.mpr hd
    simp only [Animation.value, ht, Bool.false_eq_true, if_false,
      Frac.add, Frac.sub, Frac.mul, Frac.one, Frac.zero] at h
    push_cast at h
    by_contra hcon
    push_neg at hcon
    nlinarith [mul_nonneg (mul_nonneg (neg_nonneg.mpr hcon) (sub_nonneg.mpr hp1))
      (le_of_lt hdZ)]
  · exact Or.inl rfl

theorem Animation.go_mut_wf (a : Animation) (b : Bool) (t : Nat)
    (h : AnimWF a) : AnimWF (a.go_mut b t) := by
  unfold Animation.go_mut
  split
  · exact h
  · exact ⟨a.value_den_pos t h.1, a.value_num_nonneg t h.1 h.2⟩

theorem Animation.new_wf (b : Bool) : AnimWF (Animation.new b) := by
  cases b <;> simp [AnimWF, Animation.new, Frac.one, Frac.zero]

theorem Viewer.is_open_iff (v : Viewer) (now : Nat) :
    v.is_open now = true ↔ 0 < (v.background_fade_in.value now).num := by
  unfold Viewer.is_open Animation.interpolate
  simp only [Frac.add, Frac.sub, Frac.mul, Frac.zero, Frac.isPos, decide_eq_true_eq]
  push_cast
  constructor
  · intro h
    linarith
  · intro h
    linarith

/-- C1: the claim is that a delivered full-resolution result is
installed only when its identity matches the current target, so after
navigating from image 0 to image 1 the viewer can never end up showing
the buffer of image 0. The code has no such guard: Message
ImageDownloaded carries no identity and Viewer::show installs
unconditionally, so in the admissible schedule c1Final (completions
arrive out of request order, as section 5 of the design allows) the
final state targets image 1 while displaying the buffer of image 0. -/
theorem c1_stale_result_overwrites_target :
    (c1Final.map fun g => g.viewer.current_id) = some (some ⟨1⟩) ∧
    (c1Final.map fun g => g.viewer.image) = some (some rgbaA) ∧
    rgbaA ≠ rgbaB ∧ (∃ g, c1Final = some g ∧ Reachable g []) := by
  refine ⟨by decide, by decide, by decide, ?_⟩
  refine ⟨_, rfl, ?_⟩
  have h0 := Reachable.init 0
  have h1 := Reachable.step 1 h0 (Delivers.listed (.ok [img0, img1]) [] []) rfl
  have h2 := Reachable.step 2 h1 (Delivers.user (.Open ⟨0⟩) _ rfl) rfl
  have h3 := Reachable.step 0 h2 (Delivers.user (.Animate 3) _ rfl) rfl
  have h4 := Reachable.step 4 h3
    (Delivers.user (.KeyPressed (.keyPressed .arrowRight)) _ rfl) rfl
  have h5 := Reachable.step 5 h4
    (Delivers.orig ⟨1⟩ (.ok rgbaB) [Req.downloadOriginal ⟨0⟩] []) rfl
  have h6 := Reachable.step 6 h5 (Delivers.orig ⟨0⟩ (.ok rgbaA) [] []) rfl
  exact h6

/-- C2: the claim is that two successive visibility events for one id
issue exactly one thumbnail decode request, the second being a no-op for
an id already present in the cache. The ImagePoppedIn arm of
Gallery::update never reads or writes the preview cache: each delivery
for a discovered id issues a fresh thumbnail request (two events, two
requests), even when a Ready entry for that id is already present. -/
theorem c2_second_visibility_event_issues_second_request :
    Gallery.update gListed (.ImagePoppedIn ⟨0⟩) 1
      = some (gListed, [Req.downloadThumbnail ⟨0⟩ 360 360]) ∧
    Gallery.update gListed (.ImagePoppedIn ⟨0⟩) 2
      = some (gListed, [Req.downloadThumbnail ⟨0⟩ 360 360]) ∧
    (∀ p : Preview,
      Gallery.update { gListed with previews := fun k => if k = ⟨0⟩ then some p else none }
          (.ImagePoppedIn ⟨0⟩) 3
        = some ({ gListed with previews := fun k => if k = ⟨0⟩ then some p else none },
            [Req.downloadThumbnail ⟨0⟩ 360 360])) ∧
    Gallery.update (Gallery.new 0).1 (.ImagesListed (.ok [img0])) 0 = some (gListed, []) :=
  ⟨rfl, rfl, fun _ => rfl, rfl⟩

/-- C3: the claim is that a cache entry exists for an id iff a thumbnail
decode was requested or completed, with a Loading entry inserted at the
moment the request is issued. The ImagePoppedIn arm issues the request
while leaving the state (and hence the cache) entirely unchanged, so
immediately after the request is issued there is still no entry; an
entry appears only when ThumbnailDownloaded delivers a successful
result. No site in Gallery::update ever constructs Preview.Loading. -/
theorem c3_visibility_event_inserts_no_entry :
    Gallery.update gListed (.ImagePoppedIn ⟨0⟩) 1
      = some (gListed, [Req.downloadThumbnail ⟨0⟩ 360 360]) ∧
    gListed.previews ⟨0⟩ = none ∧
    ((Gallery.update gListed (.ThumbnailDownloaded ⟨0⟩ (.ok rgbaA)) 2).map
        fun p => p.1.previews ⟨0⟩)
      = some (some (Preview.ready rgbaA 2)) ∧
    (∀ (g : Gallery) (id : ImageId) (t : Nat),
      (Gallery.update g (.ImagePoppedIn id) t).map Prod.fst = some g) := by
  refine ⟨rfl, rfl, rfl, ?_⟩
  intro g id t
  unfold Gallery.update
  cases hf : g.images.find? (fun candidate => decide (candidate.id = id)) <;> simp [hf]

/-- C4: the claim is that a successful Thumbnail 360 by 360 decode is
bounded by 360 in both axes, so an installed preview is Ready with
stored dimensions at most 360. Image::download never uses its size
argument (there is no resize step), so the decode of a 500 by 500 image
at Thumbnail 360 360 returns the full 500 by 500 buffer, the installed
Ready thumbnail stores 500 by 500, and indeed the result of download is
identical for every requested size. -/
theorem c4_thumbnail_decode_ignores_bounds :
    Image.download bigDecode ⟨⟨0⟩, ⟨"big", some ("png")⟩⟩ (.Thumbnail 360 360)
      = .ok ⟨500, 500, []⟩ ∧
    Preview.ready ⟨500, 500, []⟩ 0 = .Ready (Thumbnail.new ⟨500, 500, []⟩ 0) ∧
    (Thumbnail.new ⟨500, 500, []⟩ 0).handle.width = 500 ∧
    ¬(500 ≤ 360) ∧
    (∀ (d : FsPath → Except Error Rgba) (img : Image) (s1 s2 : Size),
      Image.download d img s1 = Image.download d img s2) := by
  refine ⟨rfl, rfl, rfl, by decide, ?_⟩
  intro d img s1 s2
  unfold Image.download
  cases d img.path <;> rfl

/-- C6 counterexample: the claim asserts that whenever currentIndex is
set it indexes a position of the image list matching currentTarget,
including in the initial state. In the initial state currentIndex is
Some 0 while the image list is empty (there is no position 0) and
currentTarget is None. -/
theorem c6_counterexample_initial_state :
    (Gallery.new 0).1.viewer.current_index = some 0 ∧
    (Gallery.new 0).1.images = [] ∧
    (Gallery.new 0).1.viewer.current_id = none :=
  ⟨rfl, rfl, rfl⟩

/-- C7: every failure completion (a failed discovery, a failed
full-resolution decode, a failed thumbnail decode) is handled without a
panic and leaves the controller state exactly unchanged, issuing no
further requests: the failure is terminal for that request only. -/
theorem c7_error_completions_leave_state_unchanged :
    ∀ (g : Gallery) (t : Nat) (e : Error) (id : ImageId),
      Gallery.update g (.ImagesListed (.error e)) t = some (g, []) ∧
      Gallery.update g (.ImageDownloaded (.error e)) t = some (g, []) ∧
      Gallery.update g (.ThumbnailDownloaded id (.error e)) t = some (g, []) :=
  fun _ _ _ _ => ⟨rfl, rfl, rfl⟩

theorem assignIds_map_path (es : List (Option FsPath)) :
    ∀ n, (assignIds es n).map Image.path
      = (es.reduceOption.filter fun p => extMatches p) := by
  induction es with
  | nil => intro n; rfl
  | cons e rest ih =>
    intro n
    cases e with
    | none => simpa [assignIds] using ih n
    | some p =>
      by_cases hm : extMatches p
      · simp [assignIds, hm, ih (n + 1)]
      · simp [assignIds, hm, ih n]

theorem assignIds_map_id (es : List (Option FsPath)) :
    ∀ n, (assignIds es n).map (fun im => im.id.val)
      = List.range' n (assignIds es n).length := by
  induction es with
  | nil => intro n; rfl
  | cons e rest ih =>
    intro n
    cases e with
    | none => simpa [assignIds] using ih n
    | some p =>
      by_cases hm : extMatches p
      · simp [assignIds, hm, List.range'_succ, ih (n + 1)]
      · simp [assignIds, hm, ih n]

theorem list_image_files_eq (es : List (Option FsPath)) :
    list_image_files (some es) = (es.reduceOption.filter fun p => extMatches p) := by
  induction es with
  | nil => rfl
  | cons e rest ih =>
    cases e with
    | none => simpa [list_image_files] using ih
    | some p =>
      by_cases hm : extMatches p <;>
        simp_all [list_image_files]

/-- C8: discovery of a directory returns exactly the successfully read
entries directly under it whose extension, lowercased, is one of jpg,
jpeg, png, gif; ids form the dense 0-based sequence in enumeration
order, with as many ids as entries passing the filter; and an unreadable
or non-existent directory yields an empty result without an error. The
concrete extMatches evaluations exhibit the case-insensitive comparison. -/
theorem c8_discovery_filter_and_dense_ids :
    Image.list none = .ok [] ∧
    list_image_files none = [] ∧
    extMatches ⟨"x", some ("JPG")⟩ = true ∧
    extMatches ⟨"y", some ("txt")⟩ = false ∧
    extMatches ⟨"z", none⟩ = false ∧
    ∀ entries : List (Option FsPath),
      Image.list (some entries) = .ok (assignIds entries 0) ∧
      (assignIds entries 0).map Image.path = list_image_files (some entries) ∧
      (assignIds entries 0).map Image.path
        = (entries.reduceOption.filter fun p => extMatches p) ∧
      (assignIds entries 0).map (fun im => im.id.val)
        = List.range (assignIds entries 0).length := by
  refine ⟨rfl, rfl, by decide, by decide, rfl, ?_⟩
  intro entries
  refine ⟨rfl, ?_, assignIds_map_path entries 0, ?_⟩
  · rw [assignIds_map_path entries 0, list_image_files_eq]
  · rw [assignIds_map_id entries 0, List.range_eq_range']

theorem handleKey_left_move (g : Gallery) (i : Nat) (t : Nat)
    (hidx : g.viewer.current_index = some i)
    (hopen : g.viewer.is_open g.now = true)
    (hi : 0 < i) (img : Image) (himg : g.images[i - 1]? = some img) :
    handleKey g (.keyPressed .arrowLeft) t
      = some ({ g with viewer :=
          { g.viewer with current_index := some (i - 1), current_id := some img.id } },
        [Req.downloadOriginal img.id]) := by
  simp [handleKey, hopen, hidx, hi, himg]

theorem handleKey_left_noop (g : Gallery) (t : Nat)
    (hidx : g.viewer.current_index = some 0)
    (hopen : g.viewer.is_open g.now = true) :
    handleKey g (.keyPressed .arrowLeft) t = some (g, []) := by
  simp [handleKey, hopen, hidx]

theorem handleKey_right_move (g : Gallery) (i : Nat) (t : Nat)
    (hidx : g.viewer.current_index = some i)
    (hopen : g.viewer.is_open g.now = true)
    (hi : i + 1 < g.images.length) (img : Image)
    (himg : g.images[i + 1]? = some img) :
    handleKey g (.keyPressed .arrowRight) t
      = some ({ g with viewer :=
          { g.viewer with current_index := some (i + 1), current_id := some img.id } },
        [Req.downloadOriginal img.id]) := by
  have hne : ¬(g.images.length = 0) := by omega
  have hlt : i < g.images.length - 1 := by omega
  simp [handleKey, hopen, hidx, hne, hlt, himg]

theorem handleKey_right_noop (g : Gallery) (i : Nat) (t : Nat)
    (hidx : g.viewer.current_index = some i)
    (hopen : g.viewer.is_open g.now = true)
    (hlen : i < g.images.length)
    (hlast : i = g.images.length - 1) :
    handleKey g (.keyPressed .arrowRight) t = some (g, []) := by
  have hne : ¬(g.images.length = 0) := by omega
  have hge : ¬(i < g.images.length - 1) := by omega
  simp [handleKey, hopen, hidx, hne, hge]

/-- C5: with the viewer open on a list of N images at index i (a valid
position), ArrowLeft is a no-op exactly when i = 0 and ArrowRight is a
no-op exactly when i = N - 1; otherwise the index moves by exactly one,
the current target becomes the id of the image at the new index, and the
single issued request is an original-resolution decode of that id. -/
theorem c5_navigation (g : Gallery) (i : Nat) (t : Nat)
    (hidx : g.viewer.current_index = some i)
    (hlen : i < g.images.length)
    (hopen : g.viewer.is_open g.now = true) :
    ((Gallery.update g (.KeyPressed (.keyPressed .arrowLeft)) t = some (g, [])) ↔ i = 0) ∧
    ((Gallery.update g (.KeyPressed (.keyPressed .arrowRight)) t = some (g, []))
      ↔ i = g.images.length - 1) ∧
    (0 < i → ∃ img, g.images[i - 1]? = some img ∧
      Gallery.update g (.KeyPressed (.keyPressed .arrowLeft)) t
        = some ({ g with viewer :=
            { g.viewer with current_index := some (i - 1), current_id := some img.id } },
          [Req.downloadOriginal img.id])) ∧
    (i + 1 < g.images.length → ∃ img, g.images[i + 1]? = some img ∧
      Gallery.update g (.KeyPressed (.keyPressed .arrowRight)) t
        = some ({ g with viewer :=
            { g.viewer with current_index := some (i + 1), current_id := some img.id } },
          [Req.downloadOriginal img.id])) := by
  have hupd : ∀ ev, Gallery.update g (.KeyPressed ev) t = handleKey g ev t := fun _ => rfl
  refine ⟨?_, ?_, ?_, ?_⟩
  · rw [hupd]
    constructor
    · intro heq
      by_contra hi0
      have hi : 0 < i := Nat.pos_of_ne_zero hi0
      have hlt : i - 1 < g.images.length := by omega
      obtain ⟨img, himg⟩ : ∃ img, g.images[i - 1]? = some img :=
        ⟨_, List.getElem?_eq_getElem hlt⟩
      rw [handleKey_left_move g i t hidx hopen hi img himg] at heq
      simp at heq
    · intro hi0
      subst hi0
      exact handleKey_left_noop g t hidx hopen
  · rw [hupd]
    constructor
    · intro heq
      by_contra hilast
      have hi : i + 1 < g.images.length := by omega
      have hlt : i + 1 < g.images.length := hi
      obtain ⟨img, himg⟩ : ∃ img, g.images[i + 1]? = some img :=
        ⟨_, List.getElem?_eq_getElem hlt⟩
      rw [handleKey_right_move g i t hidx hopen hi img himg] at heq
      simp at heq
    · intro hlast
      exact handleKey_right_noop g i t hidx hopen hlen hlast
  · intro hi
    have hlt : i - 1 < g.images.length := by omega
    obtain ⟨img, himg⟩ : ∃ img, g.images[i - 1]? = some img :=
      ⟨_, List.getElem?_eq_getElem hlt⟩
    exact ⟨img, himg, by rw [hupd]; exact handleKey_left_move g i t hidx hopen hi img himg⟩
  · intro hi
    obtain ⟨img, himg⟩ : ∃ img, g.images[i + 1]? = some img :=
      ⟨_, List.getElem?_eq_getElem hi⟩
    exact ⟨img, himg, by rw [hupd]; exact handleKey_right_move g i t hidx hopen hi img himg⟩

/-- Witness for C5 at the concrete state gOpenTwo with index 0: both
no-op equivalences and both movement implications, instantiated. -/
theorem c5_navigation_witness :
    ((Gallery.update gOpenTwo (.KeyPressed (.keyPressed .arrowLeft)) 4
        = some (gOpenTwo, [])) ↔ 0 = 0) ∧
    ((Gallery.update gOpenTwo (.KeyPressed (.keyPressed .arrowRight)) 4
        = some (gOpenTwo, [])) ↔ 0 = gOpenTwo.images.length - 1) ∧
    (0 < 0 → ∃ img, gOpenTwo.images[0 - 1]? = some img ∧
      Gallery.update gOpenTwo (.KeyPressed (.keyPressed .arrowLeft)) 4
        = some ({ gOpenTwo with viewer :=
            { gOpenTwo.viewer with current_index := some (0 - 1), current_id := some img.id } },
          [Req.downloadOriginal img.id])) ∧
    (0 + 1 < gOpenTwo.images.length → ∃ img, gOpenTwo.images[0 + 1]? = some img ∧
      Gallery.update gOpenTwo (.KeyPressed (.keyPressed .arrowRight)) 4
        = some ({ gOpenTwo with viewer :=
            { gOpenTwo.viewer with current_index := some (0 + 1), current_id := some img.id } },
          [Req.downloadOriginal img.id])) :=
  c5_navigation gOpenTwo 0 4 rfl (by decide) (by decide)

theorem findIdx?_imp (p : Image → Bool) :
    ∀ (l : List Image) (n j : Nat), List.findIdx? p l n = some j →
      n ≤ j ∧ ∃ y, l[j - n]? = some y ∧ p y = true := by
  intro l
  induction l with
  | nil => intro n j h; simp [List.findIdx?] at h
  | cons a t ih =>
    intro n j h
    rw [List.findIdx?_cons] at h
    by_cases hp : p a = true
    · simp only [hp, if_true, Option.some.injEq] at h
      subst h
      exact ⟨Nat.le_refl _, a, by simp, hp⟩
    · simp only [hp, if_false] at h
      obtain ⟨hle, y, hy, hpy⟩ := ih (n + 1) j h
      refine ⟨by omega, y, ?_, hpy⟩
      have hj : j - n = (j - (n + 1)) + 1 := by omega
      rw [hj]
      simpa using hy

theorem findIdx?_isSome_of_find? (p : Image → Bool) :
    ∀ (l : List Image) (x : Image), l.find? p = some x →
      ∀ n, ∃ j, List.findIdx? p l n = some j := by
  intro l
  induction l with
  | nil => intro x h; simp at h
  | cons a t ih =>
    intro x h n
    rw [List.find?_cons] at h
    by_cases hp : p a = true
    · exact ⟨n, by rw [List.findIdx?_cons]; simp [hp]⟩
    · simp only [hp, if_false] at h
      obtain ⟨j, hj⟩ := ih x h (n + 1)
      refine ⟨j, ?_⟩
      rw [List.findIdx?_cons]
      simp only [hp, if_false]
      exact hj

theorem find?_to_findIdx? (p : Image → Bool) (l : List Image) (x : Image)
    (h : l.find? p = some x) :
    ∃ j y, l.findIdx? p = some j ∧ l[j]? = some y ∧ p y = true := by
  obtain ⟨j, hj⟩ := findIdx?_isSome_of_find? p l x h 0
  obtain ⟨-, y, hy, hpy⟩ := findIdx?_imp p l 0 j hj
  exact ⟨j, y, hj, by simpa using hy, hpy⟩

theorem openable_of_is_open (v : Viewer) (now : Nat)
    (hwf : AnimWF v.background_fade_in) (h : v.is_open now = true) :
    Openable v.background_fade_in :=
  Animation.target_or_valueAt_pos_of_value_pos _ _ hwf.1 ((Viewer.is_open_iff v now).mp h)

theorem openable_go_mut_false (a : Animation) (t : Nat) (hd : 0 < a.valueAt.den)
    (h : Openable (a.go_mut false t)) : Openable a := by
  unfold Animation.go_mut at h
  split at h
  · exact h
  · rcases h with h | h
    · simp at h
    · exact Animation.target_or_valueAt_pos_of_value_pos a t hd h

theorem not_openable_go_mut_false (a : Animation) (t : Nat)
    (h : ¬ Openable a) : a.go_mut false t = a := by
  unfold Animation.go_mut
  have ht : a.target = false := by
    cases hx : a.target
    · rfl
    · exact absurd (Or.inl hx) h
  simp [ht]

theorem inv_transfer {s s' : Gallery} {o o' : List Req} (inv : GalleryInv s o)
    (hv : s'.viewer = s.viewer) (hi : s'.images = s.images)
    (horig : ∀ id, Req.downloadOriginal id ∈ o' → Req.downloadOriginal id ∈ o)
    (hlist : Req.listImages ∈ o' → Req.listImages ∈ o)
    (hcnt : listCount o' ≤ listCount o) : GalleryInv s' o' := by
  refine ⟨?_, ?_, ?_, ?_, ?_, ?_⟩
  · rw [hv]; exact inv.idxSome
  · intro i hidx hop
    rw [hv] at hidx hop
    rw [hi]
    refine inv.idxLt i hidx ?_
    rcases hop with hop | ⟨id, hid⟩
    · exact Or.inl hop
    · exact Or.inr ⟨id, horig id hid⟩
  · intro hm
    obtain ⟨h1, h2, h3, h4⟩ := inv.pendingList (hlist hm)
    refine ⟨by rw [hi, h1], by rw [hv]; exact h2, ?_, by rw [hv]; exact h4⟩
    rintro ⟨id, hid⟩
    exact h3 ⟨id, horig id hid⟩
  · intro id hid
    rw [hv] at hid ⊢
    rw [hi]
    exact inv.idMatch id hid
  · rw [hv]; exact inv.bgWF
  · exact le_trans hcnt inv.listOnce

theorem consumed_sub {a x : Req} {o1 o2 : List Req} (h : x ∈ o1 ++ o2) :
    x ∈ o1 ++ a :: o2 := by
  rcases List.mem_append.mp h with h | h
  · exact List.mem_append.mpr (Or.inl h)
  · exact List.mem_append.mpr (Or.inr (List.mem_cons_of_mem _ h))

theorem listCount_consumed (a : Req) (o1 o2 : List Req) :
    listCount (o1 ++ o2) ≤ listCount (o1 ++ a :: o2) := by
  simp only [listCount, List.countP_append, List.countP_cons]
  omega

theorem inv_transfer_consumed {s s' : Gallery} {a : Req} {o1 o2 : List Req}
    (inv : GalleryInv s (o1 ++ a :: o2)) (hv : s'.viewer = s.viewer)
    (hi : s'.images = s.images) : GalleryInv s' ((o1 ++ o2) ++ []) :=
  inv_transfer inv hv hi (fun _ hid => consumed_sub (by simpa using hid))
    (fun h => consumed_sub (by simpa using h))
    (by simpa using listCount_consumed a o1 o2)

theorem inv_transfer_self {s s' : Gallery} {o : List Req}
    (inv : GalleryInv s o) (hv : s'.viewer = s.viewer)
    (hi : s'.images = s.images) : GalleryInv s' (o ++ []) :=
  inv_transfer inv hv hi (fun _ hid => by simpa using hid)
    (fun h => by simpa using h) (by simp)

theorem listCount_thumb (id : ImageId) (w h : Nat) :
    listCount [Req.downloadThumbnail id w h] = 0 := by
  simp [listCount, List.countP_cons, List.countP_nil]

theorem listCount_orig (id : ImageId) :
    listCount [Req.downloadOriginal id] = 0 := by
  simp [listCount, List.countP_cons, List.countP_nil]

theorem inv_transfer_thumb {s s' : Gallery} {o : List Req} {id : ImageId} {w h : Nat}
    (inv : GalleryInv s o) (hv : s'.viewer = s.viewer)
    (hi : s'.images = s.images) :
    GalleryInv s' (o ++ [Req.downloadThumbnail id w h]) := by
  refine inv_transfer inv hv hi ?_ ?_ ?_
  · intro i hid
    rcases List.mem_append.mp hid with hx | hx
    · exact hx
    · simp at hx
  · intro hid
    rcases List.mem_append.mp hid with hx | hx
    · exact hx
    · simp at hx
  · simp [listCount, List.countP_append, listCount_thumb]

theorem inv_close {s : Gallery} {o : List Req} (t : Nat) (inv : GalleryInv s o) :
    GalleryInv { s with viewer := s.viewer.close t } (o ++ []) := by
  refine ⟨inv.idxSome, ?_, ?_, ?_, Animation.go_mut_wf _ _ _ inv.bgWF, by simpa using inv.listOnce⟩
  · intro i hidx hop
    refine inv.idxLt i hidx ?_
    rcases hop with hop | ⟨id, hid⟩
    · exact Or.inl (openable_go_mut_false _ _ inv.bgWF.1 hop)
    · exact Or.inr ⟨id, by simpa using hid⟩
  · intro hm
    obtain ⟨h1, h2, h3, h4⟩ := inv.pendingList (by simpa using hm)
    refine ⟨h1, ?_, ?_, rfl⟩
    · show ¬ Openable (s.viewer.background_fade_in.go_mut false t)
      rw [not_openable_go_mut_false _ _ h2]
      exact h2
    · rintro ⟨id, hid⟩
      exact h3 ⟨id, by simpa using hid⟩
  · intro id hid
    simp [Viewer.close] at hid

theorem inv_step {s : Gallery} {o : List Req} {m : Message} {o' : List Req} {t : Nat}
    {s' : Gallery} {reqs : List Req} (inv : GalleryInv s o) (hdel : Delivers m o o')
    (hup : Gallery.update s m t = some (s', reqs)) : GalleryInv s' (o' ++ reqs) := by
  cases m with
  | ImagesListed r =>
    cases hdel with
    | user _ _ h => simp [isUserMessage] at h
    | listed _ o1 o2 =>
      have hmem : Req.listImages ∈ o1 ++ Req.listImages :: o2 := by simp
      obtain ⟨himg0, hnop, hnorig, hid0⟩ := inv.pendingList hmem
      have hcnt : listCount o1 + (listCount o2 + 1) ≤ 1 := by
        simpa [listCount, List.countP_append, List.countP_cons] using inv.listOnce
      have hsplit : listCount o1 = 0 ∧ listCount o2 = 0 := by omega
      have hnotin : Req.listImages ∉ o1 ++ o2 := by
        intro hx
        rcases List.mem_append.mp hx with hx | hx
        · exact absurd (List.countP_eq_zero.mp hsplit.1 _ hx) (by simp)
        · exact absurd (List.countP_eq_zero.mp hsplit.2 _ hx) (by simp)
      cases r with
      | ok imgs =>
        simp only [Gallery.update, Option.some.injEq, Prod.mk.injEq] at hup
        obtain ⟨rfl, rfl⟩ := hup
        refine ⟨inv.idxSome, ?_, ?_, ?_, inv.bgWF, ?_⟩
        · intro i hidx hop
          exfalso
          rcases hop with hop | ⟨id, hid⟩
          · exact hnop hop
          · refine hnorig ⟨id, ?_⟩
            simp only [List.append_nil] at hid
            rcases List.mem_append.mp hid with hx | hx
            · exact List.mem_append.mpr (Or.inl hx)
            · exact List.mem_append.mpr (Or.inr (List.mem_cons_of_mem _ hx))
        · intro hm
          simp only [List.append_nil] at hm
          exact absurd hm hnotin
        · intro id hid
          exact absurd (hid0 ▸ hid) (by simp)
        · have : listCount ((o1 ++ o2) ++ []) = listCount o1 + listCount o2 := by
            simp [listCount, List.countP_append]
          omega
      | error e =>
        simp only [Gallery.update, Option.some.injEq, Prod.mk.injEq] at hup
        obtain ⟨rfl, rfl⟩ := hup
        refine inv_transfer inv rfl rfl ?_ ?_ ?_
        · intro id hid
          simp only [List.append_nil] at hid
          rcases List.mem_append.mp hid with hx | hx
          · exact List.mem_append.mpr (Or.inl hx)
          · exact List.mem_append.mpr (Or.inr (List.mem_cons_of_mem _ hx))
        · intro hid
          simp only [List.append_nil] at hid
          rcases List.mem_append.mp hid with hx | hx
          · exact List.mem_append.mpr (Or.inl hx)
          · exact List.mem_append.mpr (Or.inr (List.mem_cons_of_mem _ hx))
        · have : listCount ((o1 ++ o2) ++ []) = listCount o1 + listCount o2 := by
            simp [listCount, List.countP_append]
          omega
  | ImagePoppedIn id =>
    cases hdel with
    | user _ _ h =>
      simp only [Gallery.update] at hup
      split at hup
      · simp only [Option.some.injEq, Prod.mk.injEq] at hup
        obtain ⟨rfl, rfl⟩ := hup
        exact inv_transfer_self inv rfl rfl
      · simp only [Option.some.injEq, Prod.mk.injEq] at hup
        obtain ⟨rfl, rfl⟩ := hup
        exact inv_transfer_thumb inv rfl rfl
  | ImageDownloaded r =>
    cases hdel with
    | user _ _ h => simp [isUserMessage] at h
    | orig idr _ o1 o2 =>
      have hdlin : Req.downloadOriginal idr ∈ o1 ++ Req.downloadOriginal idr :: o2 := by
        simp
      have hnolist : Req.listImages ∉ o1 ++ Req.downloadOriginal idr :: o2 :=
        fun hm => (inv.pendingList hm).2.2.1 ⟨idr, hdlin⟩
      cases r with
      | ok rgba =>
        simp only [Gallery.update, Option.some.injEq, Prod.mk.injEq] at hup
        obtain ⟨rfl, rfl⟩ := hup
        refine ⟨inv.idxSome, ?_, ?_, ?_, ?_, ?_⟩
        · intro i hidx _
          exact inv.idxLt i hidx (Or.inr ⟨idr, hdlin⟩)
        · intro hm
          exact absurd (consumed_sub (by simpa using hm)) hnolist
        · intro id hid
          exact inv.idMatch id hid
        · exact Animation.go_mut_wf _ _ _ inv.bgWF
        · exact le_trans (by simpa using listCount_consumed _ o1 o2) inv.listOnce
      | error e =>
        simp only [Gallery.update, Option.some.injEq, Prod.mk.injEq] at hup
        obtain ⟨rfl, rfl⟩ := hup
        exact inv_transfer_consumed inv rfl rfl
  | ThumbnailDownloaded id r =>
    cases hdel with
    | user _ _ h => simp [isUserMessage] at h
    | thumb _ w h _ o1 o2 =>
      cases r with
      | ok rgba =>
        simp only [Gallery.update, Option.some.injEq, Prod.mk.injEq] at hup
        obtain ⟨rfl, rfl⟩ := hup
        exact inv_transfer_consumed inv rfl rfl
      | error e =>
        simp only [Gallery.update, Option.some.injEq, Prod.mk.injEq] at hup
        obtain ⟨rfl, rfl⟩ := hup
        exact inv_transfer_consumed inv rfl rfl
  | ThumbnailHovered id hovered =>
    cases hdel with
    | user _ _ h =>
      simp only [Gallery.update] at hup
      split at hup <;>
      · simp only [Option.some.injEq, Prod.mk.injEq] at hup
        obtain ⟨rfl, rfl⟩ := hup
        exact inv_transfer_self inv rfl rfl
  | Open id =>
    cases hdel with
    | user _ _ h =>
      simp only [Gallery.update] at hup
      split at hup
      · simp only [Option.some.injEq, Prod.mk.injEq] at hup
        obtain ⟨rfl, rfl⟩ := hup
        exact inv_transfer_self inv rfl rfl
      · rename_i img heq
        simp only [Option.some.injEq, Prod.mk.injEq] at hup
        obtain ⟨rfl, rfl⟩ := hup
        obtain ⟨j, y, hjidx, hjy, hpy⟩ := find?_to_findIdx? _ _ _ heq
        have hyid : y.id = id := of_decide_eq_true hpy
        have hjlt : j < s.images.length := (List.getElem?_eq_some.mp hjy).1
        have hnolist : Req.listImages ∉ o := by
          intro hm
          obtain ⟨h1, -, -, -⟩ := inv.pendingList hm
          rw [h1] at heq
          simp at heq
        refine ⟨⟨j, hjidx⟩, ?_, ?_, ?_, Animation.go_mut_wf _ _ _ inv.bgWF, ?_⟩
        · intro i hidx _
          rw [hjidx] at hidx
          obtain rfl := Option.some.inj hidx
          exact hjlt
        · intro hm
          rcases List.mem_append.mp hm with hx | hx
          · exact absurd hx hnolist
          · simp at hx
        · intro id' hid'
          obtain rfl := Option.some.inj hid'
          exact ⟨j, y, hjidx, hjy, hyid⟩
        · calc listCount (o ++ [Req.downloadOriginal id])
              = listCount o := by simp [listCount, List.countP_append, listCount_orig]
            _ ≤ 1 := inv.listOnce
  | Close =>
    cases hdel with
    | user _ _ h =>
      simp only [Gallery.update, Option.some.injEq, Prod.mk.injEq] at hup
      obtain ⟨rfl, rfl⟩ := hup
      exact inv_close t inv
  | Animate now =>
    cases hdel with
    | user _ _ h =>
      simp only [Gallery.update, Option.some.injEq, Prod.mk.injEq] at hup
      obtain ⟨rfl, rfl⟩ := hup
      exact inv_transfer_self inv rfl rfl
  | ViewportChanged =>
    cases hdel with
    | user _ _ h =>
      simp only [Gallery.update, Option.some.injEq, Prod.mk.injEq] at hup
      obtain ⟨rfl, rfl⟩ := hup
      exact inv_transfer_self inv rfl rfl
  | KeyPressed ev =>
    cases hdel with
    | user _ _ h =>
      cases ev with
      | otherKeyboardEvent =>
        simp only [Gallery.update, handleKey, Option.some.injEq, Prod.mk.injEq] at hup
        obtain ⟨rfl, rfl⟩ := hup
        exact inv_transfer_self inv rfl rfl
      | keyPressed k =>
        have hup' : handleKey s (.keyPressed k) t = some (s', reqs) := hup
        by_cases ho : s.viewer.is_open s.now = true
        · have hOpb := openable_of_is_open _ _ inv.bgWF ho
          cases k with
          | escape =>
            simp only [handleKey, ho, if_true, Option.some.injEq, Prod.mk.injEq] at hup'
            obtain ⟨rfl, rfl⟩ := hup'
            exact inv_close t inv
          | other =>
            simp only [handleKey, ho, if_true, Option.some.injEq, Prod.mk.injEq] at hup'
            obtain ⟨rfl, rfl⟩ := hup'
            exact inv_transfer_self inv rfl rfl
          | arrowLeft =>
            obtain ⟨i, hidx⟩ := inv.idxSome
            have hlt := inv.idxLt i hidx (Or.inl hOpb)
            simp only [handleKey, ho, if_true, hidx] at hup'
            by_cases hi0 : 0 < i
            · have hi1 : i - 1 < s.images.length := by omega
              have himg := List.getElem?_eq_getElem hi1
              simp only [hi0, if_true, himg, Option.some.injEq, Prod.mk.injEq] at hup'
              obtain ⟨rfl, rfl⟩ := hup'
              refine ⟨⟨i - 1, rfl⟩, ?_, ?_, ?_, inv.bgWF, ?_⟩
              · intro i' hidx' _
                obtain rfl := Option.some.inj hidx'
                exact hi1
              · intro hm
                have hmo : Req.listImages ∈ o := by
                  rcases List.mem_append.mp hm with hx | hx
                  · exact hx
                  · simp at hx
                obtain ⟨-, h2, -, -⟩ := inv.pendingList hmo
                exact absurd hOpb h2
              · intro id' hid'
                obtain rfl := Option.some.inj hid'
                exact ⟨i - 1, _, rfl, himg, rfl⟩
              · calc listCount (o ++ [Req.downloadOriginal _])
                    = listCount o := by
                      simp [listCount, List.countP_append, listCount_orig]
                  _ ≤ 1 := inv.listOnce
            · simp only [hi0, if_false, Option.some.injEq, Prod.mk.injEq] at hup'
              obtain ⟨rfl, rfl⟩ := hup'
              exact inv_transfer_self inv rfl rfl
          | arrowRight =>
            obtain ⟨i, hidx⟩ := inv.idxSome
            have hlt := inv.idxLt i hidx (Or.inl hOpb)
            have hne : ¬ (s.images.length = 0) := by omega
            simp only [handleKey, ho, if_true, hidx, hne, if_false] at hup'
            by_cases hi1 : i < s.images.length - 1
            · have hi2 : i + 1 < s.images.length := by omega
              have himg := List.getElem?_eq_getElem hi2
              simp only [hi1, if_true, himg, Option.some.injEq, Prod.mk.injEq] at hup'
              obtain ⟨rfl, rfl⟩ := hup'
              refine ⟨⟨i + 1, rfl⟩, ?_, ?_, ?_, inv.bgWF, ?_⟩
              · intro i' hidx' _
                obtain rfl := Option.some.inj hidx'
                exact hi2
              · intro hm
                have hmo : Req.listImages ∈ o := by
                  rcases List.mem_append.mp hm with hx | hx
                  · exact hx
                  · simp at hx
                obtain ⟨-, h2, -, -⟩ := inv.pendingList hmo
                exact absurd hOpb h2
              · intro id' hid'
                obtain rfl := Option.some.inj hid'
                exact ⟨i + 1, _, rfl, himg, rfl⟩
              · calc listCount (o ++ [Req.downloadOriginal _])
                    = listCount o := by
                      simp [listCount, List.countP_append, listCount_orig]
                  _ ≤ 1 := inv.listOnce
            · simp only [hi1, if_false, Option.some.injEq, Prod.mk.injEq] at hup'
              obtain ⟨rfl, rfl⟩ := hup'
              exact inv_transfer_self inv rfl rfl
        · have ho' : s.viewer.is_open s.now = false := by
            cases hx : s.viewer.is_open s.now
            · rfl
            · exact absurd hx ho
          simp only [handleKey, ho', Bool.false_eq_true, if_false,
            Option.some.injEq, Prod.mk.injEq] at hup'
          obtain ⟨rfl, rfl⟩ := hup'
          exact inv_transfer_self inv rfl rfl

theorem not_openable_new_false : ¬ Openable (Animation.new false) := by
  rintro (h | h)
  · simp [Animation.new] at h
  · simp [Animation.new, Frac.zero] at h

theorem galleryInv_of_reachable {s : Gallery} {o : List Req}
    (h : Reachable s o) : GalleryInv s o := by
  induction h with
  | init t0 =>
    refine ⟨⟨0, rfl⟩, ?_, ?_, ?_, Animation.new_wf false, ?_⟩
    · intro i hidx hop
      exfalso
      rcases hop with hop | ⟨id, hid⟩
      · exact not_openable_new_false hop
      · simp [Gallery.new] at hid
    · intro _
      refine ⟨rfl, not_openable_new_false, ?_, rfl⟩
      rintro ⟨id, hid⟩
      simp [Gallery.new] at hid
    · intro id hid
      simp [Gallery.new, Viewer.new] at hid
    · simp [listCount, Gallery.new, List.countP_cons]
  | step t hr hdel hup ih => exact inv_step ih hdel hup

theorem go_mut_of_ne (a : Animation) (tgt : Bool) (t : Nat) (h : ¬ tgt = a.target) :
    a.go_mut tgt t = ⟨tgt, t, a.value t⟩ := by
  unfold Animation.go_mut
  rw [if_neg h]

theorem go_mut_false_target (a : Animation) (t : Nat) :
    (a.go_mut false t).target = false := by
  unfold Animation.go_mut
  split
  · rename_i h; exact h.symm
  · rfl

theorem go_mut_true_target (a : Animation) (t : Nat) :
    (a.go_mut true t).target = true := by
  unfold Animation.go_mut
  split
  · rename_i h; exact h.symm
  · rfl

/-- C9: in every reachable controller state the viewer field
current_index is Some: it starts as Some 0, Open always stores the found
position, and no handler ever stores None. Consequently processing any
keyboard event never panics: the unwrap of current_index in the
ArrowLeft and ArrowRight arms (and the subsequent list indexing and
usize subtraction) always succeeds. -/
theorem c9_current_index_some_and_unwrap_safe :
    ∀ (s : Gallery) (o : List Req), Reachable s o →
      (∃ i, s.viewer.current_index = some i) ∧
      (∀ (ev : KbEvent) (t : Nat), Gallery.update s (.KeyPressed ev) t ≠ none) := by
  intro s o hr
  have inv := galleryInv_of_reachable hr
  refine ⟨inv.idxSome, ?_⟩
  intro ev t
  cases ev with
  | otherKeyboardEvent => simp [Gallery.update, handleKey]
  | keyPressed k =>
    show handleKey s (.keyPressed k) t ≠ none
    by_cases ho : s.viewer.is_open s.now = true
    · have hOpb := openable_of_is_open _ _ inv.bgWF ho
      obtain ⟨i, hidx⟩ := inv.idxSome
      have hlt := inv.idxLt i hidx (Or.inl hOpb)
      cases k with
      | escape => simp [handleKey, ho]
      | other => simp [handleKey, ho]
      | arrowLeft =>
        by_cases hi0 : 0 < i
        · have hi1 : i - 1 < s.images.length := by omega
          have himg := List.getElem?_eq_getElem hi1
          simp [handleKey, ho, hidx, hi0, himg]
        · simp [handleKey, ho, hidx, hi0]
      | arrowRight =>
        have hne : ¬ (s.images.length = 0) := by omega
        by_cases hi1 : i < s.images.length - 1
        · have hi2 : i + 1 < s.images.length := by omega
          have himg := List.getElem?_eq_getElem hi2
          simp [handleKey, ho, hidx, hne, hi1, himg]
        · simp [handleKey, ho, hidx, hne, hi1]
    · have ho' : s.viewer.is_open s.now = false := by
        cases hx : s.viewer.is_open s.now
        · rfl
        · exact absurd hx ho
      simp [handleKey, ho']

/-- Witness for C9 at the initial state. -/
theorem c9_witness :
    (∃ i, (Gallery.new 0).1.viewer.current_index = some i) ∧
    (∀ (ev : KbEvent) (t : Nat),
      Gallery.update (Gallery.new 0).1 (.KeyPressed ev) t ≠ none) :=
  c9_current_index_some_and_unwrap_safe _ _ (Reachable.init 0)

/-- C6 amended: whenever currentTarget (current_id) is set in a
reachable state, currentIndex is set, indexes a valid position of the
image list, and the image there carries exactly that identity. The
original claim additionally asserted this with currentTarget unset: it
fails in the initial state (currentIndex is Some 0 over an empty list)
and after close, which clears only currentTarget and leaves currentIndex
set, as the second part records. -/
theorem c6_amended_target_always_matches_index :
    (∀ (s : Gallery) (o : List Req), Reachable s o →
      ∀ id, s.viewer.current_id = some id →
        ∃ i img, s.viewer.current_index = some i ∧
          s.images[i]? = some img ∧ img.id = id) ∧
    (∀ (v : Viewer) (t : Nat),
      (v.close t).current_index = v.current_index ∧ (v.close t).current_id = none) := by
  refine ⟨?_, fun v t => ⟨rfl, rfl⟩⟩
  intro s o hr id hid
  exact (galleryInv_of_reachable hr).idMatch id hid

theorem gOpened_reachable : Reachable gOpened [Req.downloadOriginal ⟨0⟩] := by
  have h0 := Reachable.init 0
  have h1 := Reachable.step 0 h0 (Delivers.listed (.ok [img0]) [] []) rfl
  have h2 := Reachable.step 2 h1 (Delivers.user (.Open ⟨0⟩) _ rfl) rfl
  exact h2

/-- Witness for C6 amended at the reachable state gOpened. -/
theorem c6_amended_witness :
    (∃ i img, gOpened.viewer.current_index = some i ∧
      gOpened.images[i]? = some img ∧ img.id = (⟨0⟩ : ImageId)) ∧
    ((Viewer.new.close 5).current_index = Viewer.new.current_index ∧
      (Viewer.new.close 5).current_id = none) :=
  ⟨c6_amended_target_always_matches_index.1 gOpened _ gOpened_reachable ⟨0⟩ rfl,
    c6_amended_target_always_matches_index.2 Viewer.new 5⟩

/-- C10: Viewer::show sets the background fade target to true
unconditionally, for every viewer state. In particular a successful
full-resolution completion processed after Close has closed the viewer
re-opens the overlay: at any instant strictly after the delivery,
is_open is true again even though currentTarget is None. -/
theorem c10_show_reopens_after_close :
    (∀ (v : Viewer) (rgba : Rgba) (t : Nat),
      (v.show rgba t).background_fade_in.target = true) ∧
    (∀ (v : Viewer) (rgba : Rgba) (t1 t2 now : Nat),
      AnimWF v.background_fade_in → t2 < now →
        ((v.close t1).show rgba t2).is_open now = true ∧
        ((v.close t1).show rgba t2).current_id = none) := by
  constructor
  · intro v rgba t
    exact go_mut_true_target _ _
  · intro v rgba t1 t2 now hwf hlt
    refine ⟨?_, rfl⟩
    rw [Viewer.is_open_iff]
    have hwf1 : AnimWF (v.background_fade_in.go_mut false t1) :=
      Animation.go_mut_wf _ _ _ hwf
    have hxf : (v.background_fade_in.go_mut false t1).target = false :=
      go_mut_false_target _ _
    have hx2 : (v.background_fade_in.go_mut false t1).go_mut true t2
        = ⟨true, t2, (v.background_fade_in.go_mut false t1).value t2⟩ :=
      go_mut_of_ne _ true t2 (by rw [hxf]; simp)
    show 0 < (((v.background_fade_in.go_mut false t1).go_mut true t2).value now).num
    rw [hx2]
    exact Animation.value_num_pos_of_target _ _ rfl
      (Animation.value_den_pos _ _ hwf1.1)
      (Animation.value_num_nonneg _ _ hwf1.1 hwf1.2) hlt

/-- Witness for C10 on a fresh viewer closed at 5, shown at 7, queried
at 8. -/
theorem c10_witness :
    ((Viewer.new.close 5).show rgbaA 7).is_open 8 = true ∧
    ((Viewer.new.close 5).show rgbaA 7).current_id = none :=
  c10_show_reopens_after_close.2 Viewer.new rgbaA 5 7 8 (Animation.new_wf false)
    (by decide)
